import Mathlib

/-!
Shallow embedding of `src/app.py` (Amazon DSP creative scanner).

The Python program validates uploaded creative images against a fixed
catalog of pixel-dimension / byte-size specifications, finds the exact or
nearest specification for an image, and re-encodes images under a
byte-size ceiling by a bounded quality / compression-level search.

Pixel dimensions and byte counts are natural numbers; kilobyte sizes are
rationals (Python computes `len(bytes) / 1024` with an exact binary float,
so rational arithmetic is a faithful model of every comparison the code
performs).  Encoded byte streams are modelled as `List Nat`; the Pillow
encoders themselves are opaque to the program, so they enter the model as
an abstract `Codec` record of encoding functions.
-/

namespace DSPScanner

/-- A catalog entry: `(name, width, height, max_size_kb)` from the
`AMAZON_DSP_SPECS` dict at `src/app.py:12-25`. -/
structure SpecEntry where
  name : String
  width : Nat
  height : Nat
  max_size_kb : Nat
deriving DecidableEq

/-- The `AMAZON_DSP_SPECS` table, `src/app.py:12-25`, in the dict's
insertion order (Python dicts iterate in insertion order). -/
def AMAZON_DSP_SPECS : List SpecEntry :=
  [⟨"Desktop Medium Rectangle", 300, 250, 40⟩,
   ⟨"Desktop Leaderboard", 728, 90, 40⟩,
   ⟨"Desktop Wide Skyscraper", 160, 600, 40⟩,
   ⟨"Desktop Large Rectangle", 300, 600, 50⟩,
   ⟨"Desktop Billboard", 1940, 500, 200⟩,
   ⟨"Mobile Leaderboard", 640, 100, 50⟩,
   ⟨"Mobile Detail Banner", 828, 250, 100⟩,
   ⟨"Mobile Medium Rectangle", 600, 500, 40⟩,
   ⟨"Mobile Leaderboard Tablet", 1456, 180, 200⟩]

/-- The uploaded file's stream, as seen through `seek` / `tell`:
a byte length and a current position. -/
structure FileStream where
  length : Nat
  pos : Nat
deriving DecidableEq

/-- A decoded Pillow image as the program observes it: pixel size,
channel mode (`image.mode`) and the reader-assigned format attribute
(`image.format`, `none` for images created by the library itself). -/
structure PILImage where
  width : Nat
  height : Nat
  mode : String
  format : Option String
deriving DecidableEq

/-- The loop of `check_image_specs` (`src/app.py:47-49`): iterate the
catalog in order and return the first entry whose `(width, height)`
equals the input pair. -/
def findExact (w h : Nat) : List SpecEntry → Option SpecEntry
  | [] => none
  | e :: rest =>
    if w = e.width ∧ h = e.height then some e else findExact w h rest

/-- `check_image_specs` (`src/app.py:31-50`): seek to the end of the
uploaded stream, record `tell() / 1024` as the size in kilobytes, seek
back to position 0, then scan the catalog for an exact dimension match.
Returns the Python `(format_name, size_kb, max_size)` triple paired with
the final stream state. -/
def check_image_specs (w h : Nat) (file : FileStream) :
    (Option String × Rat × Option Nat) × FileStream :=
  let fileEnd : FileStream := { file with pos := file.length }
  let size_kb : Rat := (fileEnd.pos : Rat) / 1024
  let fileHome : FileStream := { fileEnd with pos := 0 }
  match findExact w h AMAZON_DSP_SPECS with
  | some e => ((some e.name, size_kb, some e.max_size_kb), fileHome)
  | none => ((none, size_kb, none), fileHome)

/-- Manhattan distance used by the nearest-format search in `main`
(`src/app.py:213-214`): `abs(w - req_w) + abs(h - req_h)`. -/
def manhattan (w h : Nat) (e : SpecEntry) : Nat :=
  ((w : Int) - (e.width : Int)).natAbs + ((h : Int) - (e.height : Int)).natAbs

/-- One iteration of the closest-format loop in `main`
(`src/app.py:212-217`): the accumulator is `None` while `min_diff` is
still infinite, and an entry replaces the accumulator exactly when its
distance is strictly smaller than the recorded minimum. -/
def closestStep (w h : Nat) (acc : Option (SpecEntry × Nat)) (e : SpecEntry) :
    Option (SpecEntry × Nat) :=
  let d := manhattan w h e
  match acc with
  | none => some (e, d)
  | some pr => if d < pr.2 then some (e, d) else some pr

/-- The closest-format search of `main` (`src/app.py:208-217`): fold the
catalog in order starting from `closest_match = None`, `min_diff = inf`. -/
def closestMatch (w h : Nat) (specs : List SpecEntry) : Option (SpecEntry × Nat) :=
  specs.foldl (closestStep w h) none

/-- The Pillow encoders, abstract: the program treats `image.save` as an
opaque byte-stream producer, so the model carries one byte-stream
function per save call shape appearing in `src/app.py`:
`jpeg img q` for `save(format='JPEG', quality=q, optimize=True)`,
`png img lvl` for `save(format='PNG', optimize=True, compression_level=lvl)`,
and `encodeDefault img fmt` for the plain `save(format=image.format)` of
`src/app.py:205`. -/
structure Codec where
  jpeg : PILImage → Nat → List Nat
  png : PILImage → Nat → List Nat
  encodeDefault : PILImage → Option String → List Nat

/-- Modelled from Pillow semantics: `image.convert('RGB')` returns a new
library-created image, so its `mode` is `"RGB"` and its `format`
attribute is `None`; pixel dimensions are preserved. -/
def convertRGB (img : PILImage) : PILImage :=
  { img with mode := "RGB", format := none }

/-- The mode-conversion guard appearing at `src/app.py:112-113` and
`src/app.py:66-67`: `if image.mode != 'RGB': image = image.convert('RGB')`. -/
def convertIfNeeded (img : PILImage) : PILImage :=
  if img.mode ≠ "RGB" then convertRGB img else img

/-- The output-format test of `src/app.py:115` and `src/app.py:69`:
`'JPEG' if image.format in ['JPEG', 'JPG'] else 'PNG'`. -/
def chooseFormat (img : PILImage) : String :=
  if img.format = some "JPEG" ∨ img.format = some "JPG" then "JPEG" else "PNG"

/-- Modelled from Pillow semantics: `image.resize((w, h), Image.LANCZOS)`
(`src/app.py:63` and `src/app.py:234`) returns a new library-created
image of exactly the target dimensions, with the source's channel mode
and with `format = None`. -/
def pilResize (img : PILImage) (w h : Nat) : PILImage :=
  { width := w, height := h, mode := img.mode, format := none }

/-- The JPEG quality-stepping loop (`src/app.py:119-127`, identical shape
at `src/app.py:72-81`, `src/app.py:88-96` and `src/app.py:145-154`):
`quality = 95; while quality > 5: re-encode; stop when the size in KB is
at most the ceiling; else quality -= 5`.  `buf` is the current content of
the reused `img_byte_arr` buffer; the result is the Python pair
(`final_bytes`, final buffer content). -/
def jpegSearch (c : Codec) (img : PILImage) (m : Rat) (quality : Nat)
    (buf : List Nat) : Option (List Nat) × List Nat :=
  if h : 5 < quality then
    if ((c.jpeg img quality).length : Rat) / 1024 ≤ m then
      (some (c.jpeg img quality), c.jpeg img quality)
    else jpegSearch c img m (quality - 5) (c.jpeg img quality)
  else (none, buf)
termination_by quality
decreasing_by omega

/-- The sequence of quality values attempted by the loop above when the
counter starts at `quality`: all values of the chain
`quality, quality - 5, ...` that exceed the floor 5. -/
def gridFrom (quality : Nat) : List Nat :=
  if h : 5 < quality then quality :: gridFrom (quality - 5) else []
termination_by quality
decreasing_by omega

/-- The quality-stepping loop re-expressed over its explicit list of
attempted qualities (used to reason about `jpegSearch`). -/
def jpegSearchList (c : Codec) (img : PILImage) (m : Rat) :
    List Nat → List Nat → Option (List Nat) × List Nat
  | [], buf => (none, buf)
  | q :: rest, _buf =>
    let b := c.jpeg img q
    if (b.length : Rat) / 1024 ≤ m then (some b, b)
    else jpegSearchList c img m rest b

/-- The compression levels tried by the lossless sweep,
`range(9, -1, -1)` at `src/app.py:132`. -/
def pngLevels : List Nat := [9, 8, 7, 6, 5, 4, 3, 2, 1, 0]

/-- Comparison of a fresh size against the running `min_size`, which
starts as `float('inf')` (modelled as `none`), `src/app.py:129-137`. -/
def ltMinSize (x : Rat) : Option Rat → Bool
  | none => true
  | some y => decide (x < y)

/-- The lossless compression-level sweep (`src/app.py:129-142`): for each
level from 9 down to 0, re-encode; record the bytes when the size passes
the ceiling and improves on `min_size`; stop at the first level whose
size passes the ceiling. -/
def pngSweep (c : Codec) (img : PILImage) (m : Rat) :
    List Nat → Option Rat → Option (List Nat) → Option (List Nat)
  | [], _, best => best
  | lvl :: rest, min_size, best =>
    let buf := c.png img lvl
    let size : Rat := (buf.length : Rat) / 1024
    let best2 := if size ≤ m ∧ ltMinSize size min_size = true then some buf else best
    let min2 := if size ≤ m ∧ ltMinSize size min_size = true then some size else min_size
    if size ≤ m then best2 else pngSweep c img m rest min2 best2

/-- The JPEG branch of `compress_image` (`src/app.py:118-127` together
with the fall-through return at `src/app.py:158`): on success the loop's
`final_bytes`, on exhaustion the content of `img_byte_arr`, i.e. the last
attempted encoding. -/
def jpegBranch (c : Codec) (img : PILImage) (m : Rat) : List Nat :=
  match jpegSearch c img m 95 [] with
  | (some b, _) => b
  | (none, buf) => buf

/-- The lossless branch of `compress_image` (`src/app.py:128-156`): run
the compression-level sweep; if no level passed, fall back to the JPEG
quality-stepping loop (writing into the still-empty `img_byte_arr`). -/
def pngBranch (c : Codec) (img : PILImage) (m : Rat) : List Nat :=
  match pngSweep c img m pngLevels none none with
  | some b => b
  | none => jpegBranch c img m

/-- Body of `compress_image` after the mode conversion of
`src/app.py:112-113`: pick the output family from `image.format`
(`src/app.py:115`) and run the corresponding bounded search. -/
def compress_body (c : Codec) (img : PILImage) (m : Rat) : List Nat :=
  if chooseFormat img = "JPEG" then jpegBranch c img m else pngBranch c img m

/-- `compress_image` (`src/app.py:101-158`): convert to RGB when the mode
is not RGB, then run the format-specific bounded search; always returns
a byte stream (the Python function returns `final_bytes` or, when that
is `None`, the raw buffer content). -/
def compress_image (c : Codec) (img : PILImage) (m : Rat) : List Nat :=
  compress_body c (convertIfNeeded img) m

/-- `resize_image` (`src/app.py:52-99`): Lanczos resize to the target
dimensions, RGB conversion when needed, then the same bounded searches;
returns `(bytes, output_format)`.  In the lossless branch the fallback
converts again (`src/app.py:87`) and flips `output_format` to `'JPEG'`
only when an attempt passes the ceiling (`src/app.py:93-94`). -/
def resize_image (c : Codec) (image : PILImage) (tw th : Nat) (m : Rat) :
    List Nat × String :=
  let resized := convertIfNeeded (pilResize image tw th)
  if chooseFormat image = "JPEG" then
    match jpegSearch c resized m 95 [] with
    | (some b, _) => (b, "JPEG")
    | (none, buf) => (buf, "JPEG")
  else
    let buf := c.png resized 9
    if (buf.length : Rat) / 1024 > m then
      let resized2 := convertRGB resized
      match jpegSearch c resized2 m 95 [] with
      | (some b, _) => (b, "JPEG")
      | (none, b2) => (b2, "PNG")
    else (buf, "PNG")

/-- Attempt counter of the JPEG quality-stepping loop: one per `save`
call executed by `jpegSearch` from the given starting quality. -/
def jpegAttempts (c : Codec) (img : PILImage) (m : Rat) (quality : Nat) : Nat :=
  if h : 5 < quality then
    if ((c.jpeg img quality).length : Rat) / 1024 ≤ m then 1
    else 1 + jpegAttempts c img m (quality - 5)
  else 0
termination_by quality
decreasing_by omega

/-- Attempt counter of the lossless compression-level sweep: one per
`save` call executed by `pngSweep` over the given level list. -/
def pngAttempts (c : Codec) (img : PILImage) (m : Rat) : List Nat → Nat
  | [] => 0
  | lvl :: rest =>
    if ((c.png img lvl).length : Rat) / 1024 ≤ m then 1
    else 1 + pngAttempts c img m rest

/-- The compress-and-download flow for an exact-dimension match
(`src/app.py:194-201`): the delivered data are `compress_image`'s bytes
and the delivered file name / MIME type are derived from the original
image's `format` attribute. -/
def main_compress_download (c : Codec) (img : PILImage) (m : Rat) :
    List Nat × Option String :=
  (compress_image c img m, img.format)

/-- The resize-then-compress flow of `main` (`src/app.py:233-239`): the
freshly resized image is handed to `compress_image`, and the reported
output format is recomputed from the original image's `format`. -/
def main_resize_compress (c : Codec) (img : PILImage) (e : SpecEntry) :
    List Nat × String :=
  let resized := pilResize img e.width e.height
  let final := compress_image c resized (e.max_size_kb : Rat)
  (final, chooseFormat img)

/-- The size measured by `main`'s non-conforming branch
(`src/app.py:204-206`): the image is re-saved in its own format and the
length of that fresh encoding is taken, in kilobytes. -/
def main_nonmatching_size (c : Codec) (img : PILImage) : Rat :=
  ((c.encodeDefault img img.format).length : Rat) / 1024

/-- `needs_compression` of `src/app.py:220`: the re-encoded size is
compared against the closest specification's ceiling. -/
def main_needs_compression (c : Codec) (img : PILImage) : Option Bool :=
  (closestMatch img.width img.height AMAZON_DSP_SPECS).map
    (fun ed => decide ((ed.1.max_size_kb : Rat) < main_nonmatching_size c img))

/-- The quality schedule stated by the specification: start at 95, step
down by 5, floor at 5 exclusive (so the last attempted quality is 10). -/
def qualityList : List Nat :=
  [95, 90, 85, 80, 75, 70, 65, 60, 55, 50, 45, 40, 35, 30, 25, 20, 15, 10]

/-- The JPEG-family outcome as the specification words it: the encoding
at the first quality of the schedule whose size passes the ceiling, and
the quality-10 encoding when none passes. -/
def jpegOutcome (c : Codec) (img : PILImage) (m : Rat) : List Nat :=
  match qualityList.find? (fun q => decide (((c.jpeg img q).length : Rat) / 1024 ≤ m)) with
  | some q => c.jpeg img q
  | none => c.jpeg img 10

/-- A codec whose every encode attempt yields the same 51200-byte
(50 KB) stream, at any quality or compression level. -/
def constCodec : Codec where
  jpeg := fun _ _ => List.replicate 51200 0
  png := fun _ _ => List.replicate 51200 0
  encodeDefault := fun _ _ => List.replicate 51200 0

/-- A 728x90 RGB image read from a JPEG stream. -/
def jpegImage : PILImage := ⟨728, 90, "RGB", some "JPEG"⟩

/-- A codec under which every lossless encoding is 61440 bytes (60 KB)
while every JPEG encoding is 30720 bytes (30 KB). -/
def pngStubbornCodec : Codec where
  jpeg := fun _ _ => List.replicate 30720 1
  png := fun _ _ => List.replicate 61440 0
  encodeDefault := fun _ _ => List.replicate 61440 0

/-- A 300x250 RGB image read from a PNG stream. -/
def pngImage : PILImage := ⟨300, 250, "RGB", some "PNG"⟩

/-- A codec under which a JPEG encoding at quality `q` takes `q * 512`
bytes (so quality 95 gives 47.5 KB). -/
def linearCodec : Codec where
  jpeg := fun _ q => List.replicate (q * 512) 0
  png := fun _ _ => List.replicate 51200 0
  encodeDefault := fun _ _ => List.replicate 51200 0

/-- An uploaded stream of 102400 bytes (100 KB), positioned at 0. -/
def bigFile : FileStream := ⟨102400, 0⟩

/-- An 800x100 RGB image read from a PNG stream; its dimensions match no
catalog entry. -/
def offImage : PILImage := ⟨800, 100, "RGB", some "PNG"⟩

/-- A codec whose plain default re-encoding takes 30720 bytes (30 KB). -/
def smallReencodeCodec : Codec where
  jpeg := fun _ _ => List.replicate 30720 0
  png := fun _ _ => List.replicate 30720 0
  encodeDefault := fun _ _ => List.replicate 30720 0

/-- A small uploaded stream of 2048 bytes (2 KB), positioned at 0. -/
def smallFile : FileStream := ⟨2048, 0⟩

theorem gridFrom_step (q : Nat) :
    gridFrom q = if 5 < q then q :: gridFrom (q - 5) else [] := by
  rw [gridFrom]
  split <;> rfl

theorem gridFrom_95 : gridFrom 95 = qualityList := by
  have s5 : gridFrom 5 = [] := by rw [gridFrom_step]; norm_num
  have s10 : gridFrom 10 = [10] := by rw [gridFrom_step]; norm_num [s5]
  have s15 : gridFrom 15 = [15, 10] := by rw [gridFrom_step]; norm_num [s10]
  have s20 : gridFrom 20 = [20, 15, 10] := by rw [gridFrom_step]; norm_num [s15]
  have s25 : gridFrom 25 = [25, 20, 15, 10] := by
    rw [gridFrom_step]; norm_num [s20]
  have s30 : gridFrom 30 = [30, 25, 20, 15, 10] := by
    rw [gridFrom_step]; norm_num [s25]
  have s35 : gridFrom 35 = [35, 30, 25, 20, 15, 10] := by
    rw [gridFrom_step]; norm_num [s30]
  have s40 : gridFrom 40 = [40, 35, 30, 25, 20, 15, 10] := by
    rw [gridFrom_step]; norm_num [s35]
  have s45 : gridFrom 45 = [45, 40, 35, 30, 25, 20, 15, 10] := by
    rw [gridFrom_step]; norm_num [s40]
  have s50 : gridFrom 50 = [50, 45, 40, 35, 30, 25, 20, 15, 10] := by
    rw [gridFrom_step]; norm_num [s45]
  have s55 : gridFrom 55 = [55, 50, 45, 40, 35, 30, 25, 20, 15, 10] := by
    rw [gridFrom_step]; norm_num [s50]
  have s60 : gridFrom 60 = [60, 55, 50, 45, 40, 35, 30, 25, 20, 15, 10] := by
    rw [gridFrom_step]; norm_num [s55]
  have s65 : gridFrom 65 = [65, 60, 55, 50, 45, 40, 35, 30, 25, 20, 15, 10] := by
    rw [gridFrom_step]; norm_num [s60]
  have s70 : gridFrom 70 =
      [70, 65, 60, 55, 50, 45, 40, 35, 30, 25, 20, 15, 10] := by
    rw [gridFrom_step]; norm_num [s65]
  have s75 : gridFrom 75 =
      [75, 70, 65, 60, 55, 50, 45, 40, 35, 30, 25, 20, 15, 10] := by
    rw [gridFrom_step]; norm_num [s70]
  have s80 : gridFrom 80 =
      [80, 75, 70, 65, 60, 55, 50, 45, 40, 35, 30, 25, 20, 15, 10] := by
    rw [gridFrom_step]; norm_num [s75]
  have s85 : gridFrom 85 =
      [85, 80, 75, 70, 65, 60, 55, 50, 45, 40, 35, 30, 25, 20, 15, 10] := by
    rw [gridFrom_step]; norm_num [s80]
  have s90 : gridFrom 90 =
      [90, 85, 80, 75, 70, 65, 60, 55, 50, 45, 40, 35, 30, 25, 20, 15, 10] := by
    rw [gridFrom_step]; norm_num [s85]
  rw [gridFrom_step]; norm_num [s90, qualityList]

theorem jpegSearch_eq_list (c : Codec) (img : PILImage) (m : Rat) :
    ∀ (q : Nat) (buf : List Nat),
      jpegSearch c img m q buf = jpegSearchList c img m (gridFrom q) buf := by
  intro q
  induction q using Nat.strong_induction_on with
  | _ q ih =>
    intro buf
    rw [jpegSearch, gridFrom_step]
    by_cases h : 5 < q
    · simp only [dif_pos h, if_pos h, jpegSearchList]
      by_cases hs : ((c.jpeg img q).length : Rat) / 1024 ≤ m
      · simp [hs]
      · simp only [if_neg hs]
        exact ih (q - 5) (by omega) _
    · simp only [dif_neg h, if_neg h, jpegSearchList]

theorem jpegSearchList_find (c : Codec) (img : PILImage) (m : Rat) :
    ∀ (l : List Nat) (buf : List Nat),
      jpegSearchList c img m l buf =
        match l.find? (fun q => decide (((c.jpeg img q).length : Rat) / 1024 ≤ m)) with
        | some q => (some (c.jpeg img q), c.jpeg img q)
        | none => (none, l.getLast?.elim buf (fun q => c.jpeg img q)) := by
  intro l
  induction l with
  | nil => intro buf; simp [jpegSearchList]
  | cons q rest ih =>
    intro buf
    by_cases hs : ((c.jpeg img q).length : Rat) / 1024 ≤ m
    · simp [jpegSearchList, hs, List.find?_cons_of_pos]
    · have hfind : (q :: rest).find?
          (fun q => decide (((c.jpeg img q).length : Rat) / 1024 ≤ m)) =
          rest.find? (fun q => decide (((c.jpeg img q).length : Rat) / 1024 ≤ m)) :=
        List.find?_cons_of_neg _ (by simpa using hs)
      rw [hfind]
      have hstep : jpegSearchList c img m (q :: rest) buf =
          jpegSearchList c img m rest (c.jpeg img q) := by
        simp [jpegSearchList, hs]
      rw [hstep, ih (c.jpeg img q)]
      cases hf : rest.find?
          (fun q => decide (((c.jpeg img q).length : Rat) / 1024 ≤ m)) with
      | some q' => simp
      | none =>
        cases rest with
        | nil => simp [List.getLast?]
        | cons r rs =>
          have hx : ∃ x, (r :: rs).getLast? = some x :=
            ⟨(r :: rs).getLast (by simp),
              List.getLast?_eq_getLast_of_ne_nil (by simp)⟩
          obtain ⟨x, hx⟩ := hx
          simp [hx, List.getLast?_cons_cons]

theorem jpegAttempts_le_grid (c : Codec) (img : PILImage) (m : Rat) :
    ∀ q : Nat, jpegAttempts c img m q ≤ (gridFrom q).length := by
  intro q
  induction q using Nat.strong_induction_on with
  | _ q ih =>
    rw [jpegAttempts, gridFrom_step]
    by_cases h : 5 < q
    · simp only [dif_pos h, if_pos h, List.length_cons]
      by_cases hs : ((c.jpeg img q).length : Rat) / 1024 ≤ m
      · simp only [if_pos hs]; omega
      · simp only [if_neg hs]
        have := ih (q - 5) (by omega)
        omega
    · simp only [dif_neg h, if_neg h, List.length_nil]
      exact Nat.le_refl 0

theorem pngAttempts_le_length (c : Codec) (img : PILImage) (m : Rat) :
    ∀ l : List Nat, pngAttempts c img m l ≤ l.length := by
  intro l
  induction l with
  | nil => simp [pngAttempts]
  | cons lvl rest ih =>
    rw [pngAttempts]
    by_cases hs : ((c.png img lvl).length : Rat) / 1024 ≤ m
    · simp only [if_pos hs, List.length_cons]; omega
    · simp only [if_neg hs, List.length_cons]; omega

theorem pngSweep_cons_fail (c : Codec) (img : PILImage) (m : Rat)
    (lvl : Nat) (rest : List Nat) (ms : Option Rat) (best : Option (List Nat))
    (hs : ¬ ((c.png img lvl).length : Rat) / 1024 ≤ m) :
    pngSweep c img m (lvl :: rest) ms best = pngSweep c img m rest ms best := by
  have hcond : ¬ (((c.png img lvl).length : Rat) / 1024 ≤ m ∧
      ltMinSize (((c.png img lvl).length : Rat) / 1024) ms = true) :=
    fun hc => hs hc.1
  rw [pngSweep]
  simp only [if_neg hs, if_neg hcond]

theorem pngSweep_all_fail (c : Codec) (img : PILImage) (m : Rat) :
    ∀ (l : List Nat) (ms : Option Rat) (best : Option (List Nat)),
      (∀ lvl ∈ l, ¬ ((c.png img lvl).length : Rat) / 1024 ≤ m) →
      pngSweep c img m l ms best = best := by
  intro l
  induction l with
  | nil => intro ms best _; rfl
  | cons lvl rest ih =>
    intro ms best hall
    rw [pngSweep_cons_fail c img m lvl rest ms best (hall lvl (by simp))]
    exact ih ms best (fun x hx => hall x (List.mem_cons_of_mem _ hx))

theorem closest_go (w h : Nat) :
    ∀ (l : List SpecEntry) (p : SpecEntry × Nat),
      ∃ e d, l.foldl (closestStep w h) (some p) = some (e, d) ∧
        (((e, d) = p ∧ ∀ x ∈ l, p.2 ≤ manhattan w h x) ∨
          ∃ pre post, l = pre ++ e :: post ∧ d = manhattan w h e ∧ d < p.2 ∧
            (∀ x ∈ pre, d < manhattan w h x) ∧
            (∀ x ∈ post, d ≤ manhattan w h x)) := by
  intro l
  induction l with
  | nil =>
    intro p
    exact ⟨p.1, p.2, by simp, Or.inl ⟨rfl, by simp⟩⟩
  | cons a l ih =>
    intro p
    by_cases hd : manhattan w h a < p.2
    · have hstep : (a :: l).foldl (closestStep w h) (some p) =
          l.foldl (closestStep w h) (some (a, manhattan w h a)) := by
        simp [List.foldl_cons, closestStep, hd]
      obtain ⟨e, d, heq, hdisj⟩ := ih (a, manhattan w h a)
      refine ⟨e, d, hstep.trans heq, Or.inr ?_⟩
      rcases hdisj with ⟨hep, hall⟩ | ⟨pre, post, hsplit, hde, hlt, hpre, hpost⟩
      · injection hep with he1 he2
        subst he1
        refine ⟨[], l, by simp, he2, he2 ▸ hd, by simp, ?_⟩
        intro x hx
        exact he2 ▸ hall x hx
      · refine ⟨a :: pre, post, by rw [hsplit, List.cons_append], hde,
          lt_trans hlt hd, ?_, hpost⟩
        intro x hx
        rcases List.mem_cons.mp hx with rfl | hx
        · exact hlt
        · exact hpre x hx
    · have hstep : (a :: l).foldl (closestStep w h) (some p) =
          l.foldl (closestStep w h) (some p) := by
        simp [List.foldl_cons, closestStep, hd]
      obtain ⟨e, d, heq, hdisj⟩ := ih p
      refine ⟨e, d, hstep.trans heq, ?_⟩
      rcases hdisj with ⟨hep, hall⟩ | ⟨pre, post, hsplit, hde, hlt, hpre, hpost⟩
      · refine Or.inl ⟨hep, ?_⟩
        intro x hx
        rcases List.mem_cons.mp hx with rfl | hx
        · exact le_of_not_lt hd
        · exact hall x hx
      · refine Or.inr ⟨a :: pre, post, by rw [hsplit, List.cons_append], hde,
          hlt, ?_, hpost⟩
        intro x hx
        rcases List.mem_cons.mp hx with rfl | hx
        · exact lt_of_lt_of_le hlt (le_of_not_lt hd)
        · exact hpre x hx

theorem closestMatch_cons (w h : Nat) (a : SpecEntry) (l : List SpecEntry) :
    closestMatch w h (a :: l) =
      l.foldl (closestStep w h) (some (a, manhattan w h a)) := by
  simp [closestMatch, List.foldl_cons, closestStep]

theorem closestMatch_spec (w h : Nat) (c0 : SpecEntry) (l : List SpecEntry) :
    ∃ e d, closestMatch w h (c0 :: l) = some (e, d) ∧
      e ∈ c0 :: l ∧ d = manhattan w h e ∧
      (∀ x ∈ c0 :: l, d ≤ manhattan w h x) ∧
      ∃ pre post, c0 :: l = pre ++ e :: post ∧
        ∀ x ∈ pre, d < manhattan w h x := by
  rw [closestMatch_cons]
  obtain ⟨e, d, heq, hdisj⟩ := closest_go w h l (c0, manhattan w h c0)
  rcases hdisj with ⟨hep, hall⟩ | ⟨pre, post, hsplit, hde, hlt, hpre, hpost⟩
  · injection hep with he1 he2
    subst he1
    refine ⟨e, d, heq, by simp, he2, ?_, [], l, rfl, by simp⟩
    intro x hx
    rcases List.mem_cons.mp hx with rfl | hx
    · exact le_of_eq he2
    · exact he2 ▸ hall x hx
  · refine ⟨e, d, heq, ?_, hde, ?_, c0 :: pre, post,
      by rw [hsplit, List.cons_append], ?_⟩
    · rw [hsplit]
      exact List.mem_cons_of_mem c0 (by simp)
    · intro x hx
      rcases List.mem_cons.mp hx with rfl | hx
      · exact le_of_lt hlt
      · rw [hsplit] at hx
        rcases List.mem_append.mp hx with hx | hx
        · exact le_of_lt (hpre x hx)
        · rcases List.mem_cons.mp hx with rfl | hx
          · exact le_of_eq hde
          · exact hpost x hx
    · intro x hx
      rcases List.mem_cons.mp hx with rfl | hx
      · exact hlt
      · exact hpre x hx

theorem convertIfNeeded_mode (img : PILImage) :
    (convertIfNeeded img).mode = "RGB" := by
  unfold convertIfNeeded convertRGB
  by_cases hm : img.mode = "RGB" <;> simp [hm]

theorem convertIfNeeded_eq_iff (img : PILImage) :
    convertIfNeeded img = img ↔ img.mode = "RGB" := by
  constructor
  · intro hEq
    have hmode := congrArg PILImage.mode hEq
    rw [convertIfNeeded_mode] at hmode
    exact hmode.symm
  · intro hm
    simp [convertIfNeeded, hm]

theorem convertIfNeeded_format_none (img : PILImage) (hf : img.format = none) :
    (convertIfNeeded img).format = none := by
  unfold convertIfNeeded convertRGB
  by_cases hm : img.mode = "RGB" <;> simp [hm, hf]

theorem compress_image_jpeg_eq (c : Codec) (img : PILImage) (m : Rat)
    (hmode : img.mode = "RGB")
    (hfmt : img.format = some "JPEG" ∨ img.format = some "JPG") :
    compress_image c img m = jpegOutcome c img m := by
  have hconv : convertIfNeeded img = img := (convertIfNeeded_eq_iff img).mpr hmode
  have hcf : chooseFormat img = "JPEG" := by
    rcases hfmt with hf | hf <;> simp [chooseFormat, hf]
  have hci : compress_image c img m = jpegBranch c img m := by
    rw [compress_image, hconv, compress_body, hcf]
    simp
  have hlist := jpegSearch_eq_list c img m 95 []
  rw [gridFrom_95, jpegSearchList_find] at hlist
  rw [hci, jpegBranch, hlist, jpegOutcome]
  cases hf : qualityList.find?
      (fun q => decide (((c.jpeg img q).length : Rat) / 1024 ≤ m)) with
  | some q => simp
  | none =>
    have hlast : qualityList.getLast? = some 10 := rfl
    simp [hlast]

/-- C1: for every input dimension pair, the closest-format search of
`main` returns an entry of the catalog whose Manhattan distance
`abs(w - width) + abs(h - height)` is the true minimum over the catalog,
the reported distance is that entry's distance (hence the minimum), and
every entry strictly before the winner in catalog order has a strictly
larger distance, so on ties the first entry in catalog order wins. -/
theorem nearest_match_minimizes (w h : Nat)
    (hne : ∀ e ∈ AMAZON_DSP_SPECS, ¬ (w = e.width ∧ h = e.height)) :
    ∃ e d, closestMatch w h AMAZON_DSP_SPECS = some (e, d) ∧
      e ∈ AMAZON_DSP_SPECS ∧ d = manhattan w h e ∧
      (∀ x ∈ AMAZON_DSP_SPECS, d ≤ manhattan w h x) ∧
      ∃ pre post, AMAZON_DSP_SPECS = pre ++ e :: post ∧
        ∀ x ∈ pre, d < manhattan w h x :=
  closestMatch_spec w h ⟨"Desktop Medium Rectangle", 300, 250, 40⟩
    (AMAZON_DSP_SPECS.tail)

theorem nearest_match_minimizes_witness :
    (∀ e ∈ AMAZON_DSP_SPECS, ¬ ((800 : Nat) = e.width ∧ (100 : Nat) = e.height)) ∧
    (∃ e d, closestMatch 800 100 AMAZON_DSP_SPECS = some (e, d) ∧
      e ∈ AMAZON_DSP_SPECS ∧ d = manhattan 800 100 e ∧
      (∀ x ∈ AMAZON_DSP_SPECS, d ≤ manhattan 800 100 x) ∧
      ∃ pre post, AMAZON_DSP_SPECS = pre ++ e :: post ∧
        ∀ x ∈ pre, d < manhattan 800 100 x) :=
  ⟨by decide, nearest_match_minimizes 800 100 (by decide)⟩

/-- C4: from the initial quality 95, the JPEG quality-stepping loop
performs at most 18 encode attempts, and the lossless compression-level
sweep over `range(9, -1, -1)` performs at most 10 encode attempts; both
loops are total functions of their inputs, hence always terminate. -/
theorem search_attempt_bounds (c : Codec) (img : PILImage) (m : Rat) :
    jpegAttempts c img m 95 ≤ 18 ∧ pngAttempts c img m pngLevels ≤ 10 := by
  constructor
  · have hb := jpegAttempts_le_grid c img m 95
    rw [gridFrom_95] at hb
    exact le_trans hb (by norm_num [qualityList])
  · exact le_trans (pngAttempts_le_length c img m pngLevels)
      (by norm_num [pngLevels])

/-- C6: for every catalog entry, `check_image_specs` called with that
entry's dimensions returns that entry's name and ceiling (the exact
match), scanning the catalog in order and returning the first entry
whose dimension pair equals the input; the size component is the
original stream's length in kilobytes. -/
theorem exact_match_first_entry :
    ∀ e ∈ AMAZON_DSP_SPECS, ∀ f : FileStream,
      (check_image_specs e.width e.height f).1 =
        (some e.name, (f.length : Rat) / 1024, some e.max_size_kb) := by
  intro e he f
  fin_cases he <;> rfl

theorem exact_match_first_entry_witness :
    (⟨"Desktop Leaderboard", 728, 90, 40⟩ : SpecEntry) ∈ AMAZON_DSP_SPECS ∧
    (check_image_specs 728 90 smallFile).1 =
      (some "Desktop Leaderboard", ((smallFile.length : Nat) : Rat) / 1024,
        some 40) :=
  ⟨by decide,
    exact_match_first_entry ⟨"Desktop Leaderboard", 728, 90, 40⟩ (by decide)
      smallFile⟩

/-- C10: `check_image_specs` seeks to the end of the uploaded stream only
to measure its byte length and then seeks back, so on return the stream's
position is 0 (its start) and its contents are untouched; the measured
size is the stream length in kilobytes. -/
theorem stream_position_reset (w h : Nat) (f : FileStream) :
    (check_image_specs w h f).2.pos = 0 ∧
    (check_image_specs w h f).2.length = f.length ∧
    (check_image_specs w h f).1.2.1 = (f.length : Rat) / 1024 := by
  rw [check_image_specs]
  cases findExact w h AMAZON_DSP_SPECS <;> exact ⟨rfl, rfl, rfl⟩

/-- C8: `compress_image` converts the bitmap to the RGB three-channel
model exactly when its mode is not already RGB, and it does so once,
before the output family is chosen, so every encode attempt of every
branch (JPEG quality stepping, compression-level sweep, JPEG fallback)
operates on the converted bitmap; the resize path applies the identical
conversion to the resized bitmap. -/
theorem rgb_conversion_before_encode (c : Codec) (img : PILImage) (m : Rat) :
    compress_image c img m = compress_body c (convertIfNeeded img) m ∧
    (convertIfNeeded img).mode = "RGB" ∧
    (convertIfNeeded img = img ↔ img.mode = "RGB") ∧
    ∀ tw th : Nat,
      (convertIfNeeded (pilResize img tw th)).mode = "RGB" ∧
      (convertIfNeeded (pilResize img tw th) = pilResize img tw th ↔
        (pilResize img tw th).mode = "RGB") :=
  ⟨rfl, convertIfNeeded_mode img, convertIfNeeded_eq_iff img,
    fun tw th => ⟨convertIfNeeded_mode _, convertIfNeeded_eq_iff _⟩⟩

/-- C9: in the resize-then-compress flow of `main`, `compress_image`
receives a freshly resized image whose `format` attribute is `None`; the
format test `format in ['JPEG', 'JPG']` is therefore false and the
lossless branch (compression-level sweep, then JPEG fallback) runs,
whatever the original upload's format was. -/
theorem resized_image_goes_lossless (c : Codec) (img : PILImage)
    (e : SpecEntry) :
    (pilResize img e.width e.height).format = none ∧
    chooseFormat (convertIfNeeded (pilResize img e.width e.height)) = "PNG" ∧
    (main_resize_compress c img e).1 =
      pngBranch c (convertIfNeeded (pilResize img e.width e.height))
        (e.max_size_kb : Rat) := by
  have hfmt : (convertIfNeeded (pilResize img e.width e.height)).format =
      none := convertIfNeeded_format_none _ rfl
  have hcf : chooseFormat (convertIfNeeded (pilResize img e.width e.height)) =
      "PNG" := by
    simp [chooseFormat, hfmt]
  refine ⟨rfl, hcf, ?_⟩
  rw [main_resize_compress]
  simp only [compress_image, compress_body, hcf]
  simp

/-- C2: when the JPEG branch runs, the quality search tries exactly the
schedule 95, 90, ..., 10 (start 95, step 5, floor 5 exclusive), exits at
the first quality whose encoding fits the ceiling, and in particular
returns the quality-95 encoding unchanged whenever that very first
attempt already fits. -/
theorem jpeg_quality_schedule (c : Codec) (img : PILImage) (m : Rat)
    (hmode : img.mode = "RGB")
    (hfmt : img.format = some "JPEG" ∨ img.format = some "JPG") :
    gridFrom 95 = qualityList ∧
    compress_image c img m = jpegOutcome c img m ∧
    (((c.jpeg img 95).length : Rat) / 1024 ≤ m →
      compress_image c img m = c.jpeg img 95) := by
  refine ⟨gridFrom_95, compress_image_jpeg_eq c img m hmode hfmt, ?_⟩
  intro h95
  rw [compress_image_jpeg_eq c img m hmode hfmt, jpegOutcome]
  have hfind : qualityList.find?
      (fun q => decide (((c.jpeg img q).length : Rat) / 1024 ≤ m)) =
      some 95 := by
    unfold qualityList
    exact List.find?_cons_of_pos _ (by simpa using h95)
  rw [hfind]

theorem jpeg_quality_schedule_witness :
    jpegImage.mode = "RGB" ∧
    (jpegImage.format = some "JPEG" ∨ jpegImage.format = some "JPG") ∧
    (gridFrom 95 = qualityList ∧
      compress_image linearCodec jpegImage 50 =
        jpegOutcome linearCodec jpegImage 50 ∧
      (((linearCodec.jpeg jpegImage 95).length : Rat) / 1024 ≤ 50 →
        compress_image linearCodec jpegImage 50 =
          linearCodec.jpeg jpegImage 95)) :=
  ⟨rfl, Or.inl rfl,
    jpeg_quality_schedule linearCodec jpegImage 50 rfl (Or.inl rfl)⟩

/-- C5 counterexample: the encoder's result is a bare byte string with no
Success/BestEffort tag.  Under a codec whose every JPEG attempt is 50 KB,
the call with ceiling 50 (met at the first attempt) and the call with
ceiling 40 (search exhausted, ceiling unmet) return identical values, so
no function of the result can distinguish the two cases. -/
theorem outcome_carries_no_tag :
    compress_image constCodec jpegImage 50 =
      compress_image constCodec jpegImage 40 ∧
    ((compress_image constCodec jpegImage 50).length : Rat) / 1024 ≤ 50 ∧
    ¬ ((compress_image constCodec jpegImage 40).length : Rat) / 1024 ≤ 40 := by
  have e50 : compress_image constCodec jpegImage 50 =
      List.replicate 51200 0 := by
    rw [compress_image_jpeg_eq constCodec jpegImage 50 rfl (Or.inl rfl),
      jpegOutcome]
    have hfind : qualityList.find?
        (fun q => decide (((constCodec.jpeg jpegImage q).length : Rat) / 1024 ≤ 50)) =
        some 95 := by
      unfold qualityList
      exact List.find?_cons_of_pos _
        (by norm_num [constCodec, List.length_replicate])
    rw [hfind]
    rfl
  have e40 : compress_image constCodec jpegImage 40 =
      List.replicate 51200 0 := by
    rw [compress_image_jpeg_eq constCodec jpegImage 40 rfl (Or.inl rfl),
      jpegOutcome]
    have hfind : qualityList.find?
        (fun q => decide (((constCodec.jpeg jpegImage q).length : Rat) / 1024 ≤ 40)) =
        none := by
      rw [List.find?_eq_none]
      intro q hq
      norm_num [constCodec, List.length_replicate]
    rw [hfind]
    rfl
  rw [e50, e40]
  norm_num [List.length_replicate]

/-- C5 (amended): every result of `compress_image` is a raw byte string;
when the JPEG search exhausts its schedule without meeting the ceiling,
the function still returns bytes — the final (quality-10) attempt — as
data rather than raising anything, but the value carries no tag
distinguishing this best-effort case from a true success. -/
theorem besteffort_surfaced_as_data (c : Codec) (img : PILImage) (m : Rat)
    (hmode : img.mode = "RGB")
    (hfmt : img.format = some "JPEG" ∨ img.format = some "JPG")
    (hfail : ∀ q ∈ qualityList, ¬ ((c.jpeg img q).length : Rat) / 1024 ≤ m) :
    compress_image c img m = c.jpeg img 10 ∧
    ¬ ((compress_image c img m).length : Rat) / 1024 ≤ m := by
  have hfind : qualityList.find?
      (fun q => decide (((c.jpeg img q).length : Rat) / 1024 ≤ m)) = none := by
    rw [List.find?_eq_none]
    intro q hq
    simpa using hfail q hq
  have heq : compress_image c img m = c.jpeg img 10 := by
    rw [compress_image_jpeg_eq c img m hmode hfmt, jpegOutcome, hfind]
  refine ⟨heq, ?_⟩
  rw [heq]
  exact hfail 10 (by decide)

theorem besteffort_surfaced_as_data_witness :
    jpegImage.mode = "RGB" ∧
    (∀ q ∈ qualityList,
      ¬ ((constCodec.jpeg jpegImage q).length : Rat) / 1024 ≤ 40) ∧
    (compress_image constCodec jpegImage 40 = constCodec.jpeg jpegImage 10 ∧
      ¬ ((compress_image constCodec jpegImage 40).length : Rat) / 1024 ≤ 40) :=
  ⟨rfl, fun q _ => by norm_num [constCodec, List.length_replicate],
    besteffort_surfaced_as_data constCodec jpegImage 40 rfl (Or.inl rfl)
      (fun q _ => by norm_num [constCodec, List.length_replicate])⟩

/-- C3 (the code at the failing input): a 300x250 RGB PNG upload whose
lossless encodings are all 60 KB while JPEG quality 95 gives 30 KB, under
ceiling 40 KB.  The sweep fails, the JPEG fallback's bytes are returned —
but the outcome delivered by `main`'s compress-and-download flow still
reports the original `PNG` format: the fallback's format change never
reaches the caller (`compress_image` returns bytes only and drops its
local `output_format`). -/
theorem png_fallback_format_not_marked :
    (main_compress_download pngStubbornCodec pngImage 40).1 =
      pngStubbornCodec.jpeg pngImage 95 ∧
    (main_compress_download pngStubbornCodec pngImage 40).2 = some "PNG" ∧
    (main_compress_download pngStubbornCodec pngImage 40).2 ≠ some "JPEG" := by
  have hconv : convertIfNeeded pngImage = pngImage :=
    (convertIfNeeded_eq_iff pngImage).mpr rfl
  have hcf : chooseFormat pngImage = "PNG" := rfl
  have hsweep : pngSweep pngStubbornCodec pngImage 40 pngLevels none none =
      none :=
    pngSweep_all_fail pngStubbornCodec pngImage 40 pngLevels none none
      (fun lvl _ => by norm_num [pngStubbornCodec, List.length_replicate])
  have hjb : jpegBranch pngStubbornCodec pngImage 40 =
      pngStubbornCodec.jpeg pngImage 95 := by
    rw [jpegBranch, jpegSearch_eq_list, gridFrom_95, jpegSearchList_find]
    have hfind : qualityList.find?
        (fun q => decide (((pngStubbornCodec.jpeg pngImage q).length : Rat) / 1024 ≤ 40)) =
        some 95 := by
      unfold qualityList
      exact List.find?_cons_of_pos _
        (by norm_num [pngStubbornCodec, List.length_replicate])
    rw [hfind]
  refine ⟨?_, rfl, by decide⟩
  show compress_image pngStubbornCodec pngImage 40 =
    pngStubbornCodec.jpeg pngImage 95
  rw [compress_image, hconv, compress_body, hcf]
  rw [if_neg (by decide), pngBranch, hsweep]
  exact hjb

/-- C7 (the code at the failing input): an 800x100 upload whose original
stream is 100 KB while re-saving the decoded bitmap yields 30 KB.
`check_image_specs` records 100 KB from the stream, but `main`'s
nearest-match path measures a fresh re-encoding (30 KB) and compares that
against the closest entry's 40 KB ceiling, concluding that no compression
is needed even though the original stream exceeds the ceiling. -/
theorem nearest_path_compares_reencoded_size :
    (check_image_specs 800 100 bigFile).1.2.1 = 100 ∧
    closestMatch 800 100 AMAZON_DSP_SPECS =
      some (⟨"Desktop Leaderboard", 728, 90, 40⟩, 82) ∧
    main_nonmatching_size smallReencodeCodec offImage = 30 ∧
    main_needs_compression smallReencodeCodec offImage = some false ∧
    ¬ ((check_image_specs 800 100 bigFile).1.2.1 ≤ (40 : Rat)) := by
  have hfe : findExact 800 100 AMAZON_DSP_SPECS = none := by decide
  have hsize : (check_image_specs 800 100 bigFile).1.2.1 = 100 := by
    simp only [check_image_specs, hfe, bigFile]
    norm_num
  have hcm : closestMatch 800 100 AMAZON_DSP_SPECS =
      some (⟨"Desktop Leaderboard", 728, 90, 40⟩, 82) := by decide
  have hre : main_nonmatching_size smallReencodeCodec offImage = 30 := by
    norm_num [main_nonmatching_size, smallReencodeCodec, offImage,
      List.length_replicate]
  refine ⟨hsize, hcm, hre, ?_, ?_⟩
  · have hwh : (offImage.width, offImage.height) = (800, 100) := rfl
    rw [main_needs_compression]
    show (closestMatch 800 100 AMAZON_DSP_SPECS).map _ = some false
    rw [hcm, Option.map_some', hre]
    norm_num
  · rw [hsize]
    norm_num

end DSPScanner
